import Mathlib

/-!
Shallow embedding of `cmd/cryptodog-server/server.go` (superp00t/go-cryptodog).

The server keeps a global registry `allRooms : map[string]*Room` guarded by
`allRoomsMutex`, where each `Room` holds `Users : map[string]*User` guarded by
its own mutex.  Users are heap objects carrying a mutable `Name`, an unbuffered
delivery channel `Sendc` and a departure signal `Leavec`.

The embedding uses explicit state passing:
* pointers become numeric ids (`UserId`, `RoomId`) into total heaps;
* the registry map becomes a function `String → Option RoomId`, room
  membership maps become association lists `List (String × UserId)` (they are
  iterated by roster computation and broadcast);
* a send on `Sendc` that completes becomes an append to the target's `inbox`;
  a closed `Leavec` (the target's writer loop has exited) is modelled by
  `alive = false`, in which case the send attempt fails, exactly as
  `sendMessage` in the source returns `false`;
* every mutex acquisition/release and every delivery attempt is recorded in an
  event trace, so that statements about lock ordering and about the exact set
  of broadcast recipients can be made.
-/

namespace Cryptodog

abbrev UserId := Nat

abbrev RoomId := Nat

/-- The `proto.SpecificMessage` variants produced or consumed by the server.
Fields mirror the Go structs; a field the server leaves at its zero value is
passed as `""`. -/
inductive SpecificMessage where
  | joinMsg (room name : String)
  | leaveMsg (name : String)
  | groupMsg (fromName text : String)
  | privateMsg (toName fromName text : String)
  | rosterMsg (users : List String)
  | errorMsg (err : String)
deriving DecidableEq

/-- Trace events: mutex operations on the registry (`allRoomsMutex`) and on a
room's mutex, and delivery attempts (`sendMessage` calls). -/
inductive Event where
  | lockReg
  | unlockReg
  | lockRoom (rid : RoomId)
  | unlockRoom (rid : RoomId)
  | send (uid : UserId) (msg : SpecificMessage)
deriving DecidableEq

/-- The `User` struct: `Name`, plus the delivery state replacing
`Sendc`/`Leavec`: `alive` is true while the writer goroutine still drains
`Sendc` (i.e. `Leavec` is not closed), `inbox` collects delivered messages. -/
structure UserRec where
  name : String
  alive : Bool
  inbox : List SpecificMessage
deriving DecidableEq

/-- The `Room` struct: `Name` and the `Users` map as an association list from
nickname to user id. -/
structure RoomRec where
  name : String
  users : List (String × UserId)
deriving DecidableEq

/-- Global server state: the registry `allRooms`, the heaps backing room and
user pointers, an allocator for fresh room ids, and the event trace. -/
structure ServerState where
  rooms : String → Option RoomId
  roomHeap : RoomId → RoomRec
  userHeap : UserId → UserRec
  nextRoom : Nat
  events : List Event

/-- Pointwise update of a total heap. -/
def upd {α β : Type} [DecidableEq α] (f : α → β) (a : α) (v : β) : α → β :=
  fun x => if x = a then v else f x

/-- Go map read `m[k]` (comma-ok form) on an association list. -/
def lookupA {α : Type} (k : String) : List (String × α) → Option α
  | [] => none
  | (k', v) :: rest => if k = k' then some v else lookupA k rest

/-- Go map write `m[k] = v` on an association list. -/
def setA {α : Type} (k : String) (v : α) : List (String × α) → List (String × α)
  | [] => [(k, v)]
  | (k', v') :: rest => if k = k' then (k, v) :: rest else (k', v') :: setA k v rest

/-- Go map `delete(m, k)` on an association list. -/
def delA {α : Type} (k : String) (l : List (String × α)) : List (String × α) :=
  l.filter (fun p => p.1 != k)

/-- Model of `sendMessage(user, msg)`: the select between `user.Sendc <- msg` and
`<-user.Leavec`.  If the target is still draining its channel the message is
delivered (appended to its inbox) and the function reports success; if the
target's `Leavec` is closed the attempt fails.  The attempt itself is always
recorded in the trace. -/
def sendMessage (uid : UserId) (msg : SpecificMessage) (st : ServerState) :
    ServerState × Bool :=
  if (st.userHeap uid).alive then
    ({ st with
        userHeap := upd st.userHeap uid
          { st.userHeap uid with inbox := (st.userHeap uid).inbox ++ [msg] },
        events := st.events ++ [.send uid msg] }, true)
  else
    ({ st with events := st.events ++ [.send uid msg] }, false)

/-- Model of `broadcastMessage(users, msg)`: attempt delivery to every member,
ignoring each attempt's return value. -/
def broadcastMessage (users : List (String × UserId)) (msg : SpecificMessage)
    (st : ServerState) : ServerState :=
  match users with
  | [] => st
  | u :: rest => broadcastMessage rest msg (sendMessage u.2 msg st).1

/-- Tail of `handleJoinMessage` shared by the existing-room and new-room
branches: assign `user.Name = msg.Name`, send the roster (all current
occupants except the user's own name) to the joining user, broadcast the Join
notification to the room's membership, then release the registry mutex
(deferred `allRoomsMutex.Unlock()`). -/
def joinFinish (rid : RoomId) (mn : String) (uid : UserId) (st : ServerState) :
    ServerState × Except String RoomId :=
  let st1 : ServerState :=
    { st with userHeap := upd st.userHeap uid { st.userHeap uid with name := mn } }
  let members := (st.roomHeap rid).users
  let curUsers := (members.map Prod.fst).filter (fun x => x != mn)
  let st2 := (sendMessage uid (.rosterMsg curUsers) st1).1
  let st3 := broadcastMessage members (.joinMsg "" mn) st2
  ({ st3 with events := st3.events ++ [.unlockReg] }, .ok rid)

/-- State after the existing-room branch of `handleJoinMessage` has inserted
the member under the room's mutex and released it (registry still held). -/
def joinExistingState (mn : String) (rid : RoomId) (uid : UserId)
    (st : ServerState) : ServerState :=
  { st with
      roomHeap := upd st.roomHeap rid
        { st.roomHeap rid with users := setA mn uid (st.roomHeap rid).users },
      events := st.events ++ [.lockReg, .lockRoom rid, .unlockRoom rid] }

/-- State after the new-room branch of `handleJoinMessage` has created the
room with its single member and registered it (registry still held; the fresh
room's mutex is never taken). -/
def joinNewState (mr mn : String) (uid : UserId) (st : ServerState) :
    ServerState :=
  { st with
      roomHeap := upd st.roomHeap st.nextRoom ⟨mr, [(mn, uid)]⟩,
      rooms := upd st.rooms mr (some st.nextRoom),
      nextRoom := st.nextRoom + 1,
      events := st.events ++ [.lockReg] }

/-- Model of `handleJoinMessage(msg, user)`: validate lengths (Go `len` is the UTF-8
byte length), lock the registry; if the room exists, lock it, reject a taken
nickname, else insert the member and unlock the room; otherwise create the
room with the single member and register it; then run the shared tail. -/
def handleJoinMessage (mr mn : String) (uid : UserId) (st : ServerState) :
    ServerState × Except String RoomId :=
  if mr.utf8ByteSize = 0 ∨ 128 < mr.utf8ByteSize then
    (st, .error "Room name must be between 1 and 128 characters.")
  else if mn.utf8ByteSize = 0 ∨ 128 < mn.utf8ByteSize then
    (st, .error "Nickname must be between 1 and 128 characters.")
  else
    match st.rooms mr with
    | some rid =>
      if (lookupA mn (st.roomHeap rid).users).isSome then
        ({ st with events := st.events ++
            [.lockReg, .lockRoom rid, .unlockRoom rid, .unlockReg] },
         .error "Nickname in use.")
      else
        joinFinish rid mn uid (joinExistingState mn rid uid st)
    | none =>
      joinFinish st.nextRoom mn uid (joinNewState mr mn uid st)

/-- Model of `handleLeaveMessage(room, user)`: lock the registry then the room, delete
the user's name from the membership, broadcast the Leave notification to the
remaining members, delete the room from the registry if it is now empty, then
unlock room and registry.  No error return. -/
def handleLeaveMessage (rid : RoomId) (uid : UserId) (st : ServerState) :
    ServerState :=
  let uname := (st.userHeap uid).name
  let room := st.roomHeap rid
  let remaining := delA uname room.users
  let st1 : ServerState :=
    { st with
        roomHeap := upd st.roomHeap rid { room with users := remaining },
        events := st.events ++ [.lockReg, .lockRoom rid] }
  let st2 := broadcastMessage remaining (.leaveMsg uname) st1
  let st3 := if remaining.isEmpty then
      { st2 with rooms := upd st2.rooms room.name none }
    else st2
  { st3 with events := st3.events ++ [.unlockRoom rid, .unlockReg] }

/-- Model of `handleGroupMessage(msg, room, user)`: lock the room, broadcast a Group
message attributed to the sender's current name to the full membership,
unlock, return nil. -/
def handleGroupMessage (text : String) (rid : RoomId) (uid : UserId)
    (st : ServerState) : ServerState × Except String Unit :=
  let st1 : ServerState := { st with events := st.events ++ [.lockRoom rid] }
  let st2 := broadcastMessage (st.roomHeap rid).users
      (.groupMsg (st.userHeap uid).name text) st1
  ({ st2 with events := st2.events ++ [.unlockRoom rid] }, .ok ())

/-- Model of `handlePrivateMessage(msg, room, user)`: lock the room; if `msg.To` is a
member, attempt delivery of the Private message to that user, failing with the
delivery error if the attempt does not complete; otherwise fail with the
recipient-not-found error.  The deferred unlock runs at return. -/
def handlePrivateMessage (toName text : String) (rid : RoomId) (uid : UserId)
    (st : ServerState) : ServerState × Except String Unit :=
  let st1 : ServerState := { st with events := st.events ++ [.lockRoom rid] }
  match lookupA toName (st.roomHeap rid).users with
  | some tid =>
    let r := sendMessage tid (.privateMsg "" (st.userHeap uid).name text) st1
    ({ r.1 with events := r.1.events ++ [.unlockRoom rid] },
     if r.2 then .ok ()
     else .error "Failed to deliver private message to recipient.")
  | none =>
    ({ st1 with events := st1.events ++ [.unlockRoom rid] },
     .error "Recipient not in room.")

/-- Per-session state of the `ws` handler goroutine: the `hasJoined` flag and
the current room pointer, plus the id of the session's `User`. -/
structure Session where
  uid : UserId
  hasJoined : Bool
  room : Option RoomId
deriving DecidableEq

/-- An inbound frame after `json.Unmarshal` into its `proto` struct: the
decoded payload of each recognized `msg.Type`, or an unrecognized type tag. -/
inductive InMessage where
  | joinM (room name : String)
  | leaveM
  | groupM (text : String)
  | privM (toName text : String)
  | unknownM (t : Nat)
deriving DecidableEq

/-- Result of one iteration of the receive loop: keep looping, or write to
`errc` and return (tearing the session down). -/
inductive StepResult where
  | cont
  | fatal (err : String)
deriving DecidableEq

/-- The `if err != nil` tail of the receive loop: a recoverable error is
converted to an `ErrorMessage` and sent to the session's own user; if that
send fails the iteration becomes fatal. -/
def afterSwitch (s : Session) (err : Option String) (st : ServerState) :
    ServerState × Session × StepResult :=
  match err with
  | none => (st, s, .cont)
  | some e =>
    let r := sendMessage s.uid (.errorMsg e) st
    if r.2 then (r.1, s, .cont)
    else (r.1, s, .fatal ("failed to send error to client (" ++ e ++ ")"))

/-- Turn a handler's `error` return into the receive loop's `err` variable. -/
def errOpt : Except String Unit → Option String
  | .ok _ => none
  | .error e => some e

/-- One iteration of the receive loop in `ws`: dispatch on the message type
guarded by `hasJoined`, run the matching handler, then the error tail. -/
def wsStep (s : Session) (m : InMessage) (st : ServerState) :
    ServerState × Session × StepResult :=
  match m with
  | .joinM r n =>
    if s.hasJoined then
      afterSwitch s (some "You have already joined a room.") st
    else
      let res := handleJoinMessage r n s.uid st
      match res.2 with
      | .ok rid => afterSwitch { s with hasJoined := true, room := some rid } none res.1
      | .error e => afterSwitch s (some e) res.1
  | .leaveM =>
    if !s.hasJoined then
      afterSwitch s (some "You need to join a room to do that.") st
    else
      let st1 := handleLeaveMessage (s.room.getD 0) s.uid st
      let st2 : ServerState :=
        { st1 with userHeap := upd st1.userHeap s.uid { st1.userHeap s.uid with name := "" } }
      afterSwitch { s with hasJoined := false, room := none } none st2
  | .groupM text =>
    if !s.hasJoined then
      afterSwitch s (some "You need to join a room to do that.") st
    else
      let res := handleGroupMessage text (s.room.getD 0) s.uid st
      afterSwitch s (errOpt res.2) res.1
  | .privM toName text =>
    if !s.hasJoined then
      afterSwitch s (some "You need to join a room to do that.") st
    else
      let res := handlePrivateMessage toName text (s.room.getD 0) s.uid st
      afterSwitch s (errOpt res.2) res.1
  | .unknownM t =>
    (st, s, .fatal ("unknown message type: " ++ toString t))

/-! ### Basic lemmas about the map and heap primitives -/

@[simp]
theorem upd_same {α β : Type} [DecidableEq α] (f : α → β) (a : α) (v : β) :
    upd f a v a = v := by
  simp [upd]

theorem upd_other {α β : Type} [DecidableEq α] (f : α → β) (a x : α) (v : β)
    (h : x ≠ a) : upd f a v x = f x := by
  simp [upd, h]

theorem lookupA_eq_none_iff {α : Type} (k : String) (l : List (String × α)) :
    lookupA k l = none ↔ ∀ p ∈ l, p.1 ≠ k := by
  induction l with
  | nil => simp [lookupA]
  | cons hd tl ih =>
    obtain ⟨k', v'⟩ := hd
    simp only [lookupA]
    by_cases h : k = k'
    · subst h
      simp only [if_pos rfl]
      constructor
      · intro hc; exact absurd hc (by simp)
      · intro hall; exact absurd rfl (hall (k, v') (by simp))
    · rw [if_neg h, ih]
      constructor
      · intro hall p hp
        rcases List.mem_cons.1 hp with rfl | hp
        · exact fun hc => h hc.symm
        · exact hall p hp
      · intro hall p hp
        exact hall p (List.mem_cons_of_mem _ hp)

theorem setA_ne_nil {α : Type} (k : String) (v : α) (l : List (String × α)) :
    setA k v l ≠ [] := by
  cases l with
  | nil => simp [setA]
  | cons hd tl =>
    rw [show hd = (hd.1, hd.2) from rfl]
    unfold setA
    split <;> simp

theorem mem_setA_self {α : Type} (k : String) (v : α) (l : List (String × α)) :
    (k, v) ∈ setA k v l := by
  induction l with
  | nil => simp [setA]
  | cons hd tl ih =>
    rw [show hd = (hd.1, hd.2) from rfl]
    unfold setA
    split <;> simp [ih]

theorem not_mem_delA {α : Type} (k : String) (v : α) (l : List (String × α)) :
    (k, v) ∉ delA k l := by
  intro h
  have h2 := (List.mem_filter.1 h).2
  simp at h2

theorem delA_of_lookupA_none {α : Type} (k : String) (l : List (String × α))
    (h : lookupA k l = none) : delA k l = l := by
  rw [lookupA_eq_none_iff] at h
  exact List.filter_eq_self.2 (fun p hp => by simpa using h p hp)

/-! ### Component preservation for `sendMessage` and `broadcastMessage` -/

@[simp]
theorem sendMessage_rooms (uid : UserId) (msg : SpecificMessage) (st : ServerState) :
    ((sendMessage uid msg st).1).rooms = st.rooms := by
  unfold sendMessage; split <;> rfl

@[simp]
theorem sendMessage_roomHeap (uid : UserId) (msg : SpecificMessage) (st : ServerState) :
    ((sendMessage uid msg st).1).roomHeap = st.roomHeap := by
  unfold sendMessage; split <;> rfl

@[simp]
theorem sendMessage_nextRoom (uid : UserId) (msg : SpecificMessage) (st : ServerState) :
    ((sendMessage uid msg st).1).nextRoom = st.nextRoom := by
  unfold sendMessage; split <;> rfl

@[simp]
theorem sendMessage_events (uid : UserId) (msg : SpecificMessage) (st : ServerState) :
    ((sendMessage uid msg st).1).events = st.events ++ [.send uid msg] := by
  unfold sendMessage; split <;> rfl

@[simp]
theorem sendMessage_snd (uid : UserId) (msg : SpecificMessage) (st : ServerState) :
    (sendMessage uid msg st).2 = (st.userHeap uid).alive := by
  unfold sendMessage
  split <;> rename_i h
  · simp [h]
  · simp [Bool.eq_false_iff.2 h]

@[simp]
theorem sendMessage_name (uid v : UserId) (msg : SpecificMessage) (st : ServerState) :
    (((sendMessage uid msg st).1).userHeap v).name = (st.userHeap v).name := by
  unfold sendMessage
  split
  · by_cases h : v = uid
    · subst h; simp
    · simp [upd_other _ _ _ _ h]
  · rfl

@[simp]
theorem sendMessage_alive (uid v : UserId) (msg : SpecificMessage) (st : ServerState) :
    (((sendMessage uid msg st).1).userHeap v).alive = (st.userHeap v).alive := by
  unfold sendMessage
  split
  · by_cases h : v = uid
    · subst h; simp
    · simp [upd_other _ _ _ _ h]
  · rfl

theorem sendMessage_inbox_alive (uid : UserId) (msg : SpecificMessage) (st : ServerState)
    (h : (st.userHeap uid).alive = true) :
    (((sendMessage uid msg st).1).userHeap uid).inbox = (st.userHeap uid).inbox ++ [msg] := by
  unfold sendMessage
  split
  · simp
  · rename_i hc; simp [h] at hc

theorem sendMessage_inbox_mono (uid v : UserId) (msg : SpecificMessage) (st : ServerState) :
    ∃ ex, (((sendMessage uid msg st).1).userHeap v).inbox = (st.userHeap v).inbox ++ ex := by
  unfold sendMessage
  split
  · by_cases h : v = uid
    · subst h; exact ⟨[msg], by simp⟩
    · exact ⟨[], by simp [upd_other _ _ _ _ h]⟩
  · exact ⟨[], by simp⟩

@[simp]
theorem broadcastMessage_rooms (us : List (String × UserId)) (msg : SpecificMessage)
    (st : ServerState) : (broadcastMessage us msg st).rooms = st.rooms := by
  induction us generalizing st with
  | nil => rfl
  | cons hd tl ih => simp [broadcastMessage, ih]

@[simp]
theorem broadcastMessage_roomHeap (us : List (String × UserId)) (msg : SpecificMessage)
    (st : ServerState) : (broadcastMessage us msg st).roomHeap = st.roomHeap := by
  induction us generalizing st with
  | nil => rfl
  | cons hd tl ih => simp [broadcastMessage, ih]

@[simp]
theorem broadcastMessage_nextRoom (us : List (String × UserId)) (msg : SpecificMessage)
    (st : ServerState) : (broadcastMessage us msg st).nextRoom = st.nextRoom := by
  induction us generalizing st with
  | nil => rfl
  | cons hd tl ih => simp [broadcastMessage, ih]

@[simp]
theorem broadcastMessage_events (us : List (String × UserId)) (msg : SpecificMessage)
    (st : ServerState) :
    (broadcastMessage us msg st).events =
      st.events ++ us.map (fun p => Event.send p.2 msg) := by
  induction us generalizing st with
  | nil => simp [broadcastMessage]
  | cons hd tl ih => simp [broadcastMessage, ih]

@[simp]
theorem broadcastMessage_name (us : List (String × UserId)) (msg : SpecificMessage)
    (st : ServerState) (v : UserId) :
    ((broadcastMessage us msg st).userHeap v).name = (st.userHeap v).name := by
  induction us generalizing st with
  | nil => rfl
  | cons hd tl ih => simp [broadcastMessage, ih]

@[simp]
theorem broadcastMessage_alive (us : List (String × UserId)) (msg : SpecificMessage)
    (st : ServerState) (v : UserId) :
    ((broadcastMessage us msg st).userHeap v).alive = (st.userHeap v).alive := by
  induction us generalizing st with
  | nil => rfl
  | cons hd tl ih => simp [broadcastMessage, ih]

theorem broadcastMessage_inbox_mono (us : List (String × UserId)) (msg : SpecificMessage)
    (st : ServerState) (v : UserId) :
    ∃ ex, ((broadcastMessage us msg st).userHeap v).inbox = (st.userHeap v).inbox ++ ex := by
  induction us generalizing st with
  | nil => exact ⟨[], by simp [broadcastMessage]⟩
  | cons hd tl ih =>
    obtain ⟨ex1, h1⟩ := sendMessage_inbox_mono hd.2 v msg st
    obtain ⟨ex2, h2⟩ := ih (sendMessage hd.2 msg st).1
    exact ⟨ex1 ++ ex2, by simp [broadcastMessage, h2, h1]⟩

/-! ### Characterization of `joinFinish` -/

theorem joinFinish_snd (rid : RoomId) (mn : String) (uid : UserId) (st : ServerState) :
    (joinFinish rid mn uid st).2 = .ok rid := by
  rfl

@[simp]
theorem joinFinish_rooms (rid : RoomId) (mn : String) (uid : UserId) (st : ServerState) :
    ((joinFinish rid mn uid st).1).rooms = st.rooms := by
  simp [joinFinish]

@[simp]
theorem joinFinish_roomHeap (rid : RoomId) (mn : String) (uid : UserId) (st : ServerState) :
    ((joinFinish rid mn uid st).1).roomHeap = st.roomHeap := by
  simp [joinFinish]

@[simp]
theorem joinFinish_nextRoom (rid : RoomId) (mn : String) (uid : UserId) (st : ServerState) :
    ((joinFinish rid mn uid st).1).nextRoom = st.nextRoom := by
  simp [joinFinish]

theorem joinFinish_events (rid : RoomId) (mn : String) (uid : UserId) (st : ServerState) :
    ((joinFinish rid mn uid st).1).events =
      st.events ++
        Event.send uid
            (.rosterMsg (((st.roomHeap rid).users.map Prod.fst).filter (fun x => x != mn))) ::
          ((st.roomHeap rid).users.map (fun p => Event.send p.2 (.joinMsg "" mn)) ++
            [Event.unlockReg]) := by
  simp [joinFinish]

theorem joinFinish_name (rid : RoomId) (mn : String) (uid : UserId) (st : ServerState) :
    (((joinFinish rid mn uid st).1).userHeap uid).name = mn := by
  simp [joinFinish]

theorem joinFinish_inbox (rid : RoomId) (mn : String) (uid : UserId) (st : ServerState)
    (h : (st.userHeap uid).alive = true) :
    ∃ rest, (((joinFinish rid mn uid st).1).userHeap uid).inbox =
      (st.userHeap uid).inbox ++
        (SpecificMessage.rosterMsg
            (((st.roomHeap rid).users.map Prod.fst).filter (fun x => x != mn)) :: rest) := by
  unfold joinFinish
  obtain ⟨ex, hex⟩ := broadcastMessage_inbox_mono (st.roomHeap rid).users (.joinMsg "" mn)
    (sendMessage uid
      (.rosterMsg (((st.roomHeap rid).users.map Prod.fst).filter (fun x => x != mn)))
      { st with userHeap := upd st.userHeap uid { st.userHeap uid with name := mn } }).1 uid
  refine ⟨ex, ?_⟩
  simp only []
  rw [hex, sendMessage_inbox_alive _ _ _ (by simpa using h)]
  simp

/-! ### Branch reduction lemmas for `handleJoinMessage` -/

theorem handleJoin_validRoom (mr mn : String) (uid : UserId) (st : ServerState)
    (h1 : mr.utf8ByteSize = 0 ∨ 128 < mr.utf8ByteSize) :
    handleJoinMessage mr mn uid st =
      (st, .error "Room name must be between 1 and 128 characters.") := by
  simp [handleJoinMessage, h1]

theorem handleJoin_validNick (mr mn : String) (uid : UserId) (st : ServerState)
    (h1 : ¬(mr.utf8ByteSize = 0 ∨ 128 < mr.utf8ByteSize))
    (h2 : mn.utf8ByteSize = 0 ∨ 128 < mn.utf8ByteSize) :
    handleJoinMessage mr mn uid st =
      (st, .error "Nickname must be between 1 and 128 characters.") := by
  simp [handleJoinMessage, h1, h2]

theorem handleJoin_taken (mr mn : String) (uid : UserId) (st : ServerState)
    (rid : RoomId)
    (h1 : ¬(mr.utf8ByteSize = 0 ∨ 128 < mr.utf8ByteSize))
    (h2 : ¬(mn.utf8ByteSize = 0 ∨ 128 < mn.utf8ByteSize))
    (heq : st.rooms mr = some rid)
    (h3 : (lookupA mn (st.roomHeap rid).users).isSome) :
    handleJoinMessage mr mn uid st =
      ({ st with events := st.events ++
          [.lockReg, .lockRoom rid, .unlockRoom rid, .unlockReg] },
       .error "Nickname in use.") := by
  simp [handleJoinMessage, h1, h2, heq, h3]

theorem handleJoin_existing (mr mn : String) (uid : UserId) (st : ServerState)
    (rid : RoomId)
    (h1 : ¬(mr.utf8ByteSize = 0 ∨ 128 < mr.utf8ByteSize))
    (h2 : ¬(mn.utf8ByteSize = 0 ∨ 128 < mn.utf8ByteSize))
    (heq : st.rooms mr = some rid)
    (h3 : lookupA mn (st.roomHeap rid).users = none) :
    handleJoinMessage mr mn uid st =
      joinFinish rid mn uid (joinExistingState mn rid uid st) := by
  simp [handleJoinMessage, h1, h2, heq, h3]

theorem handleJoin_new (mr mn : String) (uid : UserId) (st : ServerState)
    (h1 : ¬(mr.utf8ByteSize = 0 ∨ 128 < mr.utf8ByteSize))
    (h2 : ¬(mn.utf8ByteSize = 0 ∨ 128 < mn.utf8ByteSize))
    (heq : st.rooms mr = none) :
    handleJoinMessage mr mn uid st =
      joinFinish st.nextRoom mn uid (joinNewState mr mn uid st) := by
  simp [handleJoinMessage, h1, h2, heq]

/-! ### The registry/membership invariant (claim C1) -/

/-- The room-lifecycle invariant: a registered room has a consistent name, was
allocated, and is non-empty; conversely every allocated non-empty room is
registered under some name. -/
def RegInv (st : ServerState) : Prop :=
  (∀ n rid, st.rooms n = some rid →
    (st.roomHeap rid).name = n ∧ rid < st.nextRoom ∧ (st.roomHeap rid).users ≠ []) ∧
  (∀ rid, rid < st.nextRoom → (st.roomHeap rid).users ≠ [] →
    ∃ n, st.rooms n = some rid)

theorem regInv_iff_core (a b : ServerState) (h1 : a.rooms = b.rooms)
    (h2 : a.roomHeap = b.roomHeap) (h3 : a.nextRoom = b.nextRoom) :
    RegInv a ↔ RegInv b := by
  unfold RegInv
  rw [h1, h2, h3]

/-! ### Lock-trace checkers (claim C9) -/

/-- Run over an event trace keeping which mutexes are held; accepts iff the
trace is balanced, no mutex is recursively re-acquired, and the registry mutex
is only ever acquired or released while no room mutex is held (so a room mutex
taken inside the registry section is released strictly before the registry
mutex, and the registry mutex is never acquired while a room mutex is held). -/
def lockCheck : Bool → List RoomId → List Event → Bool
  | reg, rooms, [] => !reg && rooms.isEmpty
  | reg, rooms, .lockReg :: es => !reg && rooms.isEmpty && lockCheck true rooms es
  | reg, rooms, .unlockReg :: es => reg && rooms.isEmpty && lockCheck false rooms es
  | reg, rooms, .lockRoom r :: es => !(rooms.contains r) && lockCheck reg (r :: rooms) es
  | reg, rooms, .unlockRoom r :: es => rooms.contains r && lockCheck reg (rooms.erase r) es
  | reg, rooms, .send _ _ :: es => lockCheck reg rooms es

/-- Accepts iff every room-mutex acquisition in the trace happens while the
registry mutex is held ("registry before room"). -/
def roomUnderReg : Bool → List Event → Bool
  | _, [] => true
  | _, .lockReg :: es => roomUnderReg true es
  | _, .unlockReg :: es => roomUnderReg false es
  | reg, .lockRoom _ :: es => reg && roomUnderReg reg es
  | reg, .unlockRoom _ :: es => roomUnderReg reg es
  | reg, .send _ _ :: es => roomUnderReg reg es

/-- Whether a trace acquires the registry mutex at all. -/
def hasRegLock : List Event → Bool
  | [] => false
  | .lockReg :: _ => true
  | _ :: es => hasRegLock es

theorem lockCheck_skip_sends (l : List (String × UserId)) (m : SpecificMessage)
    (reg : Bool) (rooms : List RoomId) (es : List Event) :
    lockCheck reg rooms (l.map (fun p => Event.send p.2 m) ++ es) =
      lockCheck reg rooms es := by
  induction l with
  | nil => rfl
  | cons hd tl ih => simp [lockCheck, ih]

theorem roomUnderReg_skip_sends (l : List (String × UserId)) (m : SpecificMessage)
    (reg : Bool) (es : List Event) :
    roomUnderReg reg (l.map (fun p => Event.send p.2 m) ++ es) =
      roomUnderReg reg es := by
  induction l with
  | nil => rfl
  | cons hd tl ih => simp [roomUnderReg, ih]

theorem hasRegLock_skip_sends (l : List (String × UserId)) (m : SpecificMessage)
    (es : List Event) :
    hasRegLock (l.map (fun p => Event.send p.2 m) ++ es) = hasRegLock es := by
  induction l with
  | nil => rfl
  | cons hd tl ih => simpa [hasRegLock] using ih

/-! ### Component characterizations of the join/leave states -/

@[simp]
theorem joinExistingState_rooms (mn : String) (rid : RoomId) (uid : UserId)
    (st : ServerState) : (joinExistingState mn rid uid st).rooms = st.rooms := rfl

@[simp]
theorem joinExistingState_roomHeap (mn : String) (rid : RoomId) (uid : UserId)
    (st : ServerState) :
    (joinExistingState mn rid uid st).roomHeap =
      upd st.roomHeap rid
        { st.roomHeap rid with users := setA mn uid (st.roomHeap rid).users } := rfl

@[simp]
theorem joinExistingState_nextRoom (mn : String) (rid : RoomId) (uid : UserId)
    (st : ServerState) : (joinExistingState mn rid uid st).nextRoom = st.nextRoom := rfl

@[simp]
theorem joinNewState_rooms (mr mn : String) (uid : UserId) (st : ServerState) :
    (joinNewState mr mn uid st).rooms = upd st.rooms mr (some st.nextRoom) := rfl

@[simp]
theorem joinNewState_roomHeap (mr mn : String) (uid : UserId) (st : ServerState) :
    (joinNewState mr mn uid st).roomHeap =
      upd st.roomHeap st.nextRoom ⟨mr, [(mn, uid)]⟩ := rfl

@[simp]
theorem joinNewState_nextRoom (mr mn : String) (uid : UserId) (st : ServerState) :
    (joinNewState mr mn uid st).nextRoom = st.nextRoom + 1 := rfl

theorem leave_roomHeap (rid : RoomId) (uid : UserId) (st : ServerState) :
    (handleLeaveMessage rid uid st).roomHeap =
      upd st.roomHeap rid
        { st.roomHeap rid with
            users := delA (st.userHeap uid).name (st.roomHeap rid).users } := by
  simp [handleLeaveMessage, apply_ite (f := ServerState.roomHeap)]

theorem leave_rooms (rid : RoomId) (uid : UserId) (st : ServerState) :
    (handleLeaveMessage rid uid st).rooms =
      if (delA (st.userHeap uid).name (st.roomHeap rid).users).isEmpty
      then upd st.rooms (st.roomHeap rid).name none
      else st.rooms := by
  simp [handleLeaveMessage, apply_ite (f := ServerState.rooms)]

theorem leave_nextRoom (rid : RoomId) (uid : UserId) (st : ServerState) :
    (handleLeaveMessage rid uid st).nextRoom = st.nextRoom := by
  simp [handleLeaveMessage, apply_ite (f := ServerState.nextRoom)]

theorem leave_events (rid : RoomId) (uid : UserId) (st : ServerState) :
    (handleLeaveMessage rid uid st).events =
      st.events ++ Event.lockReg :: Event.lockRoom rid ::
        ((delA (st.userHeap uid).name (st.roomHeap rid).users).map
            (fun p => Event.send p.2 (.leaveMsg (st.userHeap uid).name)) ++
          [Event.unlockRoom rid, Event.unlockReg]) := by
  simp [handleLeaveMessage, apply_ite (f := ServerState.events)]

/-! ### Concrete states used by the witnesses -/

/-- A server with no rooms; user ids are backed by live sessions that have not
joined yet. -/
def emptyState : ServerState :=
  { rooms := fun _ => none
    roomHeap := fun _ => ⟨"", []⟩
    userHeap := fun _ => ⟨"", true, []⟩
    nextRoom := 0
    events := [] }

/-- Room 0 "lobby" populated by alice (user 0) and bob (user 1), both live. -/
def stAB : ServerState :=
  { rooms := upd (fun _ => none) "lobby" (some 0)
    roomHeap := upd (fun _ => ⟨"", []⟩) 0 ⟨"lobby", [("alice", 0), ("bob", 1)]⟩
    userHeap := fun u =>
      if u = 0 then ⟨"alice", true, []⟩
      else if u = 1 then ⟨"bob", true, []⟩
      else ⟨"", true, []⟩
    nextRoom := 1
    events := [] }

/-- Same as `stAB` except bob's writer loop has exited (`Leavec` closed). -/
def stABdead : ServerState :=
  { stAB with
      userHeap := fun u =>
        if u = 0 then ⟨"alice", true, []⟩
        else if u = 1 then ⟨"bob", false, []⟩
        else ⟨"", true, []⟩ }

theorem regInv_stAB : RegInv stAB := by
  constructor
  · intro n rid h
    by_cases hn : n = "lobby"
    · subst hn
      rw [show stAB.rooms "lobby" = some 0 from rfl] at h
      cases h
      refine ⟨rfl, by decide, by decide⟩
    · rw [show stAB.rooms n = upd (fun _ => none) "lobby" (some 0) n from rfl,
        upd_other _ _ _ _ hn] at h
      cases h
  · intro rid hlt _
    have : rid = 0 := by
      have : rid < 1 := hlt
      omega
    subst this
    exact ⟨"lobby", rfl⟩

/-! ### Claim theorems -/

/-- Claim C7: `handleGroupMessage` always returns nil, leaves the registry and
every room's membership unchanged, and attempts delivery of a Group message
carrying the given text and attributed to the sender's current name to the
room's full membership (the sender, being a member, included). -/
theorem C7_group_broadcast (text : String) (rid : RoomId) (uid : UserId)
    (st : ServerState) :
    (handleGroupMessage text rid uid st).2 = .ok () ∧
    ((handleGroupMessage text rid uid st).1).rooms = st.rooms ∧
    ((handleGroupMessage text rid uid st).1).roomHeap = st.roomHeap ∧
    ((handleGroupMessage text rid uid st).1).events =
      st.events ++ Event.lockRoom rid ::
        ((st.roomHeap rid).users.map
            (fun p => Event.send p.2 (.groupMsg (st.userHeap uid).name text)) ++
          [Event.unlockRoom rid]) ∧
    ∀ p ∈ (st.roomHeap rid).users,
      Event.send p.2 (.groupMsg (st.userHeap uid).name text) ∈
        ((handleGroupMessage text rid uid st).1).events := by
  refine ⟨rfl, by simp [handleGroupMessage], by simp [handleGroupMessage],
    by simp [handleGroupMessage], ?_⟩
  intro p hp
  rw [show ((handleGroupMessage text rid uid st).1).events =
      st.events ++ Event.lockRoom rid ::
        ((st.roomHeap rid).users.map
            (fun p => Event.send p.2 (.groupMsg (st.userHeap uid).name text)) ++
          [Event.unlockRoom rid]) from by simp [handleGroupMessage]]
  exact List.mem_append_right _ (List.mem_cons_of_mem _
    (List.mem_append_left _ (List.mem_map_of_mem _ hp)))

theorem C7_group_broadcast_witness :
    Event.send 1 (.groupMsg (stAB.userHeap 0).name "hi") ∈
      ((handleGroupMessage "hi" 0 0 stAB).1).events :=
  (C7_group_broadcast "hi" 0 0 stAB).2.2.2.2 ("bob", 1) (by decide)

/-- Claim C6: `handleLeaveMessage` removes the user's name from the room's
membership (returning nothing: there is no error path), then broadcasts a
Leave notification announcing that name to exactly the remaining members — in
particular to no member registered under the departing name — and when the
name was not a member the membership is unchanged while the broadcast still
takes place. -/
theorem C6_leave_broadcast (rid : RoomId) (uid : UserId) (st : ServerState) :
    ((handleLeaveMessage rid uid st).roomHeap rid).users =
      delA (st.userHeap uid).name (st.roomHeap rid).users ∧
    (∀ r, r ≠ rid → (handleLeaveMessage rid uid st).roomHeap r = st.roomHeap r) ∧
    (handleLeaveMessage rid uid st).events =
      st.events ++ Event.lockReg :: Event.lockRoom rid ::
        ((delA (st.userHeap uid).name (st.roomHeap rid).users).map
            (fun p => Event.send p.2 (.leaveMsg (st.userHeap uid).name)) ++
          [Event.unlockRoom rid, Event.unlockReg]) ∧
    (∀ p ∈ delA (st.userHeap uid).name (st.roomHeap rid).users,
      Event.send p.2 (.leaveMsg (st.userHeap uid).name) ∈
        (handleLeaveMessage rid uid st).events) ∧
    (∀ v, ((st.userHeap uid).name, v) ∉
      delA (st.userHeap uid).name (st.roomHeap rid).users) ∧
    (lookupA (st.userHeap uid).name (st.roomHeap rid).users = none →
      ((handleLeaveMessage rid uid st).roomHeap rid).users = (st.roomHeap rid).users) := by
  have hheap : (handleLeaveMessage rid uid st).roomHeap =
      upd st.roomHeap rid
        { st.roomHeap rid with
            users := delA (st.userHeap uid).name (st.roomHeap rid).users } := by
    simp [handleLeaveMessage, apply_ite (f := ServerState.roomHeap)]
  have hev : (handleLeaveMessage rid uid st).events =
      st.events ++ Event.lockReg :: Event.lockRoom rid ::
        ((delA (st.userHeap uid).name (st.roomHeap rid).users).map
            (fun p => Event.send p.2 (.leaveMsg (st.userHeap uid).name)) ++
          [Event.unlockRoom rid, Event.unlockReg]) := by
    simp [handleLeaveMessage, apply_ite (f := ServerState.events)]
  refine ⟨by rw [hheap]; simp, fun r hr => by rw [hheap, upd_other _ _ _ _ hr],
    hev, ?_, fun v => not_mem_delA _ v _, ?_⟩
  · intro p hp
    rw [hev]
    exact List.mem_append_right _ (List.mem_cons_of_mem _
      (List.mem_cons_of_mem _ (List.mem_append_left _ (List.mem_map_of_mem _ hp))))
  · intro hnone
    rw [hheap, upd_same, delA_of_lookupA_none _ _ hnone]

theorem C6_leave_broadcast_witness :
    ((handleLeaveMessage 0 1 stAB).roomHeap 0).users =
        delA (stAB.userHeap 1).name (stAB.roomHeap 0).users ∧
    Event.send 0 (.leaveMsg (stAB.userHeap 1).name) ∈ (handleLeaveMessage 0 1 stAB).events ∧
    ((handleLeaveMessage 0 5 stAB).roomHeap 0).users = (stAB.roomHeap 0).users :=
  ⟨(C6_leave_broadcast 0 1 stAB).1,
   (C6_leave_broadcast 0 1 stAB).2.2.2.1 ("alice", 0) (by decide),
   (C6_leave_broadcast 0 5 stAB).2.2.2.2.2 (by decide)⟩

/-- Claim C3: `handlePrivateMessage` succeeds exactly when the target name is
a current member whose delivery attempt completes (the target's writer loop is
still running); a member whose attempt does not complete yields the
delivery-failure error, an absent name yields the recipient-not-found error,
and on success the delivered Private message carries the sender's current name
and the given text. -/
theorem C3_private (toName text : String) (rid : RoomId) (uid : UserId)
    (st : ServerState) :
    ((handlePrivateMessage toName text rid uid st).2 = .ok () ↔
      ∃ tid, lookupA toName (st.roomHeap rid).users = some tid ∧
        (st.userHeap tid).alive = true) ∧
    (lookupA toName (st.roomHeap rid).users = none →
      (handlePrivateMessage toName text rid uid st).2 =
        .error "Recipient not in room.") ∧
    (∀ tid, lookupA toName (st.roomHeap rid).users = some tid →
      (st.userHeap tid).alive = false →
      (handlePrivateMessage toName text rid uid st).2 =
        .error "Failed to deliver private message to recipient.") ∧
    (∀ tid, lookupA toName (st.roomHeap rid).users = some tid →
      (st.userHeap tid).alive = true →
      (((handlePrivateMessage toName text rid uid st).1).userHeap tid).inbox =
        (st.userHeap tid).inbox ++ [.privateMsg "" (st.userHeap uid).name text]) := by
  cases hl : lookupA toName (st.roomHeap rid).users with
  | none =>
    refine ⟨by simp [handlePrivateMessage, hl], fun _ => by simp [handlePrivateMessage, hl],
      ?_, ?_⟩ <;> intro tid htid <;> exact Option.noConfusion htid
  | some tid =>
    cases ha : (st.userHeap tid).alive with
    | false =>
      refine ⟨?_, fun hc => Option.noConfusion hc, ?_, ?_⟩
      · simp [handlePrivateMessage, hl, ha]
      · intro tid' htid' ha'
        injection htid' with h
        subst h
        simp [handlePrivateMessage, hl, ha]
      · intro tid' htid' ha'
        injection htid' with h
        subst h
        rw [ha] at ha'
        cases ha'
    | true =>
      refine ⟨?_, fun hc => Option.noConfusion hc, ?_, ?_⟩
      · simp [handlePrivateMessage, hl, ha]
      · intro tid' htid' ha'
        injection htid' with h
        subst h
        rw [ha] at ha'
        cases ha'
      · intro tid' htid' ha'
        injection htid' with h
        subst h
        simp only [handlePrivateMessage, hl]
        rw [sendMessage_inbox_alive _ _ _ (by exact ha)]

theorem C3_private_witness :
    (handlePrivateMessage "carol" "x" 0 0 stAB).2 = .error "Recipient not in room." ∧
    (handlePrivateMessage "bob" "hey" 0 0 stABdead).2 =
      .error "Failed to deliver private message to recipient." ∧
    (((handlePrivateMessage "bob" "hey" 0 0 stAB).1).userHeap 1).inbox =
      (stAB.userHeap 1).inbox ++ [.privateMsg "" (stAB.userHeap 0).name "hey"] :=
  ⟨(C3_private "carol" "x" 0 0 stAB).2.1 (by decide),
   (C3_private "bob" "hey" 0 0 stABdead).2.2.1 1 (by decide) (by decide),
   (C3_private "bob" "hey" 0 0 stAB).2.2.2 1 (by decide) (by decide)⟩

/-- Claim C10 (implicit): the private-message handler imposes no
self-exclusion — when the target name is the sender's own current nickname and
it maps to the sender in the room's membership, the lookup succeeds and the
message is delivered to the sender (attributed to their own name) rather than
rejected as recipient-not-found. -/
theorem C10_private_self (text : String) (rid : RoomId) (uid : UserId)
    (st : ServerState)
    (hmem : lookupA (st.userHeap uid).name (st.roomHeap rid).users = some uid)
    (halive : (st.userHeap uid).alive = true) :
    (handlePrivateMessage (st.userHeap uid).name text rid uid st).2 = .ok () ∧
    (((handlePrivateMessage (st.userHeap uid).name text rid uid st).1).userHeap uid).inbox =
      (st.userHeap uid).inbox ++ [.privateMsg "" (st.userHeap uid).name text] := by
  constructor
  · simp [handlePrivateMessage, hmem, halive]
  · simp only [handlePrivateMessage, hmem]
    rw [sendMessage_inbox_alive _ _ _ (by exact halive)]

theorem C10_private_self_witness :
    (handlePrivateMessage (stAB.userHeap 0).name "x" 0 0 stAB).2 = .ok () ∧
    (((handlePrivateMessage (stAB.userHeap 0).name "x" 0 0 stAB).1).userHeap 0).inbox =
      (stAB.userHeap 0).inbox ++ [.privateMsg "" (stAB.userHeap 0).name "x"] :=
  C10_private_self "x" 0 0 stAB (by decide) (by decide)

/-- Claim C5: after every successful join the Join notification announcing
the new nickname is broadcast to the membership as it stands after the
insertion, so the joining user is among the recipients of its own Join
announcement. -/
theorem C5_join_self_broadcast (mr mn : String) (uid : UserId) (st : ServerState)
    (rid : RoomId) (h : (handleJoinMessage mr mn uid st).2 = .ok rid) :
    (mn, uid) ∈ (((handleJoinMessage mr mn uid st).1).roomHeap rid).users ∧
    (∃ pre, ((handleJoinMessage mr mn uid st).1).events =
      pre ++ ((((handleJoinMessage mr mn uid st).1).roomHeap rid).users.map
          (fun p => Event.send p.2 (.joinMsg "" mn)) ++ [Event.unlockReg])) ∧
    Event.send uid (.joinMsg "" mn) ∈ ((handleJoinMessage mr mn uid st).1).events := by
  by_cases h1 : mr.utf8ByteSize = 0 ∨ 128 < mr.utf8ByteSize
  · rw [handleJoin_validRoom mr mn uid st h1] at h
    exact Except.noConfusion h
  by_cases h2 : mn.utf8ByteSize = 0 ∨ 128 < mn.utf8ByteSize
  · rw [handleJoin_validNick mr mn uid st h1 h2] at h
    exact Except.noConfusion h
  cases heq : st.rooms mr with
  | some rid0 =>
    by_cases h3 : (lookupA mn (st.roomHeap rid0).users).isSome
    · rw [handleJoin_taken mr mn uid st rid0 h1 h2 heq h3] at h
      exact Except.noConfusion h
    · have h3' : lookupA mn (st.roomHeap rid0).users = none :=
        Option.not_isSome_iff_eq_none.1 h3
      rw [handleJoin_existing mr mn uid st rid0 h1 h2 heq h3'] at h ⊢
      rw [joinFinish_snd] at h
      injection h with h
      subst h
      have hmem : (mn, uid) ∈
          (((joinExistingState mn rid0 uid st)).roomHeap rid0).users := by
        show (mn, uid) ∈
          (upd st.roomHeap rid0
            { st.roomHeap rid0 with users := setA mn uid (st.roomHeap rid0).users } rid0).users
        rw [upd_same]
        exact mem_setA_self mn uid _
      refine ⟨by rw [joinFinish_roomHeap]; exact hmem, ?_, ?_⟩
      · refine ⟨(joinExistingState mn rid0 uid st).events ++
          [Event.send uid (.rosterMsg
            ((((joinExistingState mn rid0 uid st).roomHeap rid0).users.map Prod.fst).filter
              (fun x => x != mn)))], ?_⟩
        rw [joinFinish_events, joinFinish_roomHeap]
        simp
      · rw [joinFinish_events]
        exact List.mem_append_right _ (List.mem_cons_of_mem _
          (List.mem_append_left _ (List.mem_map_of_mem _ hmem)))
  | none =>
    rw [handleJoin_new mr mn uid st h1 h2 heq] at h ⊢
    rw [joinFinish_snd] at h
    injection h with h
    subst h
    have hmem : (mn, uid) ∈
        (((joinNewState mr mn uid st)).roomHeap st.nextRoom).users := by
      show (mn, uid) ∈ (upd st.roomHeap st.nextRoom ⟨mr, [(mn, uid)]⟩ st.nextRoom).users
      rw [upd_same]
      exact List.mem_singleton.2 rfl
    refine ⟨by rw [joinFinish_roomHeap]; exact hmem, ?_, ?_⟩
    · refine ⟨(joinNewState mr mn uid st).events ++
        [Event.send uid (.rosterMsg
          ((((joinNewState mr mn uid st).roomHeap st.nextRoom).users.map Prod.fst).filter
            (fun x => x != mn)))], ?_⟩
      rw [joinFinish_events, joinFinish_roomHeap]
      simp
    · rw [joinFinish_events]
      exact List.mem_append_right _ (List.mem_cons_of_mem _
        (List.mem_append_left _ (List.mem_map_of_mem _ hmem)))

theorem C5_join_self_broadcast_witness :
    (("carol", 2) ∈ (((handleJoinMessage "lobby" "carol" 2 stAB).1).roomHeap 0).users) ∧
    Event.send 2 (.joinMsg "" "carol") ∈
      ((handleJoinMessage "lobby" "carol" 2 stAB).1).events :=
  ⟨(C5_join_self_broadcast "lobby" "carol" 2 stAB 0 rfl).1,
   (C5_join_self_broadcast "lobby" "carol" 2 stAB 0 rfl).2.2⟩

/-- Claim C4: every successful join sends the joining user a Roster message
whose user list is exactly the post-insertion membership minus the user's own
nickname (so the creator of a fresh room gets an empty roster), and sets the
user's name to the requested nickname. -/
theorem C4_join_roster (mr mn : String) (uid : UserId) (st : ServerState)
    (rid : RoomId) (h : (handleJoinMessage mr mn uid st).2 = .ok rid) :
    (((handleJoinMessage mr mn uid st).1).userHeap uid).name = mn ∧
    ∃ others,
      Event.send uid (.rosterMsg others) ∈
        ((handleJoinMessage mr mn uid st).1).events ∧
      (∀ x, x ∈ others ↔
        (x ∈ (((handleJoinMessage mr mn uid st).1).roomHeap rid).users.map Prod.fst ∧
          x ≠ mn)) ∧
      (st.rooms mr = none → others = []) ∧
      ((st.userHeap uid).alive = true →
        ∃ rest, (((handleJoinMessage mr mn uid st).1).userHeap uid).inbox =
          (st.userHeap uid).inbox ++ (SpecificMessage.rosterMsg others :: rest)) := by
  by_cases h1 : mr.utf8ByteSize = 0 ∨ 128 < mr.utf8ByteSize
  · rw [handleJoin_validRoom mr mn uid st h1] at h
    exact Except.noConfusion h
  by_cases h2 : mn.utf8ByteSize = 0 ∨ 128 < mn.utf8ByteSize
  · rw [handleJoin_validNick mr mn uid st h1 h2] at h
    exact Except.noConfusion h
  cases heq : st.rooms mr with
  | some rid0 =>
    by_cases h3 : (lookupA mn (st.roomHeap rid0).users).isSome
    · rw [handleJoin_taken mr mn uid st rid0 h1 h2 heq h3] at h
      exact Except.noConfusion h
    · have h3' : lookupA mn (st.roomHeap rid0).users = none :=
        Option.not_isSome_iff_eq_none.1 h3
      rw [handleJoin_existing mr mn uid st rid0 h1 h2 heq h3'] at h ⊢
      rw [joinFinish_snd] at h
      injection h with h
      subst h
      refine ⟨joinFinish_name _ _ _ _,
        ((((joinExistingState mn rid0 uid st).roomHeap rid0).users.map Prod.fst).filter
          (fun x => x != mn)), ?_, ?_, ?_, ?_⟩
      · rw [joinFinish_events]
        exact List.mem_append_right _ (List.mem_cons_self _ _)
      · intro x
        rw [joinFinish_roomHeap]
        simp only [List.mem_filter, bne_iff_ne, ne_eq]
      · intro hc
        exact Option.noConfusion hc
      · intro halive
        exact joinFinish_inbox _ _ _ _ (by exact halive)
  | none =>
    rw [handleJoin_new mr mn uid st h1 h2 heq] at h ⊢
    rw [joinFinish_snd] at h
    injection h with h
    subst h
    have husers : ((joinNewState mr mn uid st).roomHeap st.nextRoom).users = [(mn, uid)] := by
      show (upd st.roomHeap st.nextRoom ⟨mr, [(mn, uid)]⟩ st.nextRoom).users = [(mn, uid)]
      rw [upd_same]
    have hempty :
        (((joinNewState mr mn uid st).roomHeap st.nextRoom).users.map Prod.fst).filter
          (fun x => x != mn) = [] := by
      rw [husers]
      simp
    refine ⟨joinFinish_name _ _ _ _, [], ?_, ?_, fun _ => rfl, ?_⟩
    · rw [joinFinish_events, hempty]
      exact List.mem_append_right _ (List.mem_cons_self _ _)
    · intro x
      rw [joinFinish_roomHeap, husers]
      simp
    · intro halive
      have := joinFinish_inbox st.nextRoom mn uid (joinNewState mr mn uid st)
        (by exact halive)
      rwa [hempty] at this

theorem C4_join_roster_witness :
    (((handleJoinMessage "lobby" "carol" 2 stAB).1).userHeap 2).name = "carol" ∧
    (((handleJoinMessage "den" "dana" 3 stAB).1).userHeap 3).name = "dana" :=
  ⟨(C4_join_roster "lobby" "carol" 2 stAB 0 rfl).1,
   (C4_join_roster "den" "dana" 3 stAB 1 rfl).1⟩

/-- Claim C2: `handleJoinMessage` returns an error exactly when the room name
length is outside [1,128] bytes, the nickname length is outside [1,128] bytes,
or the room exists and the nickname is already taken there; and every error
return leaves the registry, every room's membership, and the user heap (hence
the joining user's name) unchanged. -/
theorem C2_join_error_iff (mr mn : String) (uid : UserId) (st : ServerState) :
    ((∃ e, (handleJoinMessage mr mn uid st).2 = .error e) ↔
      ((mr.utf8ByteSize = 0 ∨ 128 < mr.utf8ByteSize) ∨
        (mn.utf8ByteSize = 0 ∨ 128 < mn.utf8ByteSize) ∨
        ∃ rid, st.rooms mr = some rid ∧
          (lookupA mn (st.roomHeap rid).users).isSome = true)) ∧
    ∀ e, (handleJoinMessage mr mn uid st).2 = .error e →
      ((handleJoinMessage mr mn uid st).1).rooms = st.rooms ∧
      ((handleJoinMessage mr mn uid st).1).roomHeap = st.roomHeap ∧
      ((handleJoinMessage mr mn uid st).1).userHeap = st.userHeap := by
  by_cases h1 : mr.utf8ByteSize = 0 ∨ 128 < mr.utf8ByteSize
  · rw [handleJoin_validRoom mr mn uid st h1]
    exact ⟨⟨fun _ => Or.inl h1, fun _ => ⟨_, rfl⟩⟩, fun e _ => ⟨rfl, rfl, rfl⟩⟩
  by_cases h2 : mn.utf8ByteSize = 0 ∨ 128 < mn.utf8ByteSize
  · rw [handleJoin_validNick mr mn uid st h1 h2]
    exact ⟨⟨fun _ => Or.inr (Or.inl h2), fun _ => ⟨_, rfl⟩⟩, fun e _ => ⟨rfl, rfl, rfl⟩⟩
  cases heq : st.rooms mr with
  | some rid0 =>
    by_cases h3 : (lookupA mn (st.roomHeap rid0).users).isSome
    · rw [handleJoin_taken mr mn uid st rid0 h1 h2 heq h3]
      exact ⟨⟨fun _ => Or.inr (Or.inr ⟨rid0, rfl, h3⟩), fun _ => ⟨_, rfl⟩⟩,
        fun e _ => ⟨rfl, rfl, rfl⟩⟩
    · have h3' : lookupA mn (st.roomHeap rid0).users = none :=
        Option.not_isSome_iff_eq_none.1 h3
      rw [handleJoin_existing mr mn uid st rid0 h1 h2 heq h3']
      constructor
      · constructor
        · rintro ⟨e, he⟩
          rw [joinFinish_snd] at he
          exact Except.noConfusion he
        · rintro (hc | hc | ⟨rid', heq', hs⟩)
          · exact absurd hc h1
          · exact absurd hc h2
          · injection heq' with hh
            subst hh
            rw [h3'] at hs
            exact Bool.noConfusion hs
      · intro e he
        rw [joinFinish_snd] at he
        exact Except.noConfusion he
  | none =>
    rw [handleJoin_new mr mn uid st h1 h2 heq]
    constructor
    · constructor
      · rintro ⟨e, he⟩
        rw [joinFinish_snd] at he
        exact Except.noConfusion he
      · rintro (hc | hc | ⟨rid', heq', _⟩)
        · exact absurd hc h1
        · exact absurd hc h2
        · exact Option.noConfusion heq'
    · intro e he
      rw [joinFinish_snd] at he
      exact Except.noConfusion he

theorem C2_join_error_iff_witness :
    (((handleJoinMessage "" "alice" 2 stAB).1).rooms = stAB.rooms ∧
      ((handleJoinMessage "" "alice" 2 stAB).1).roomHeap = stAB.roomHeap ∧
      ((handleJoinMessage "" "alice" 2 stAB).1).userHeap = stAB.userHeap) ∧
    (((handleJoinMessage "lobby" "alice" 2 stAB).1).rooms = stAB.rooms ∧
      ((handleJoinMessage "lobby" "alice" 2 stAB).1).roomHeap = stAB.roomHeap ∧
      ((handleJoinMessage "lobby" "alice" 2 stAB).1).userHeap = stAB.userHeap) :=
  ⟨(C2_join_error_iff "" "alice" 2 stAB).2
      "Room name must be between 1 and 128 characters." rfl,
   (C2_join_error_iff "lobby" "alice" 2 stAB).2 "Nickname in use." rfl⟩

/-- Claim C1: the room-lifecycle invariant.  A successful join registers the
target room with at least one member (creating it when absent); a leave that
empties a room's membership deletes the room from the registry within the same
operation; and both handlers preserve the invariant that a room is registered
exactly when its membership is non-empty (for the leave handler, under the
session's guarantee that its room is currently registered). -/
theorem C1_room_lifecycle :
    (∀ mr mn uid st rid, (handleJoinMessage mr mn uid st).2 = .ok rid →
      ((handleJoinMessage mr mn uid st).1).rooms mr = some rid ∧
      (((handleJoinMessage mr mn uid st).1).roomHeap rid).users ≠ []) ∧
    (∀ rid uid st, ((handleLeaveMessage rid uid st).roomHeap rid).users = [] →
      (handleLeaveMessage rid uid st).rooms (st.roomHeap rid).name = none) ∧
    (∀ mr mn uid st, RegInv st → RegInv ((handleJoinMessage mr mn uid st).1)) ∧
    (∀ rid uid st, RegInv st → st.rooms (st.roomHeap rid).name = some rid →
      RegInv (handleLeaveMessage rid uid st)) := by
  refine ⟨?_, ?_, ?_, ?_⟩
  · -- successful join registers a non-empty room
    intro mr mn uid st rid h
    by_cases h1 : mr.utf8ByteSize = 0 ∨ 128 < mr.utf8ByteSize
    · rw [handleJoin_validRoom mr mn uid st h1] at h
      exact Except.noConfusion h
    by_cases h2 : mn.utf8ByteSize = 0 ∨ 128 < mn.utf8ByteSize
    · rw [handleJoin_validNick mr mn uid st h1 h2] at h
      exact Except.noConfusion h
    cases heq : st.rooms mr with
    | some rid0 =>
      by_cases h3 : (lookupA mn (st.roomHeap rid0).users).isSome
      · rw [handleJoin_taken mr mn uid st rid0 h1 h2 heq h3] at h
        exact Except.noConfusion h
      · have h3' : lookupA mn (st.roomHeap rid0).users = none :=
          Option.not_isSome_iff_eq_none.1 h3
        rw [handleJoin_existing mr mn uid st rid0 h1 h2 heq h3'] at h ⊢
        rw [joinFinish_snd] at h
        injection h with h
        subst h
        constructor
        · rw [joinFinish_rooms, joinExistingState_rooms]
          exact heq
        · rw [joinFinish_roomHeap, joinExistingState_roomHeap, upd_same]
          exact setA_ne_nil mn uid _
    | none =>
      rw [handleJoin_new mr mn uid st h1 h2 heq] at h ⊢
      rw [joinFinish_snd] at h
      injection h with h
      subst h
      constructor
      · rw [joinFinish_rooms, joinNewState_rooms, upd_same]
      · rw [joinFinish_roomHeap, joinNewState_roomHeap, upd_same]
        simp
  · -- a leave that empties the room deregisters it
    intro rid uid st hempty
    rw [leave_roomHeap, upd_same] at hempty
    rw [leave_rooms, if_pos (List.isEmpty_iff.2 hempty), upd_same]
  · -- join preserves the invariant
    intro mr mn uid st hInv
    by_cases h1 : mr.utf8ByteSize = 0 ∨ 128 < mr.utf8ByteSize
    · rw [handleJoin_validRoom mr mn uid st h1]
      exact hInv
    by_cases h2 : mn.utf8ByteSize = 0 ∨ 128 < mn.utf8ByteSize
    · rw [handleJoin_validNick mr mn uid st h1 h2]
      exact hInv
    obtain ⟨hA, hB⟩ := hInv
    cases heq : st.rooms mr with
    | some rid0 =>
      by_cases h3 : (lookupA mn (st.roomHeap rid0).users).isSome
      · rw [handleJoin_taken mr mn uid st rid0 h1 h2 heq h3]
        exact (regInv_iff_core _ st rfl rfl rfl).2 ⟨hA, hB⟩
      · have h3' : lookupA mn (st.roomHeap rid0).users = none :=
          Option.not_isSome_iff_eq_none.1 h3
        rw [handleJoin_existing mr mn uid st rid0 h1 h2 heq h3']
        refine (regInv_iff_core _ _ (joinFinish_rooms _ _ _ _)
          (joinFinish_roomHeap _ _ _ _) (joinFinish_nextRoom _ _ _ _)).2 ⟨?_, ?_⟩
        · intro n r hr
          rw [joinExistingState_rooms] at hr
          rcases hA n r hr with ⟨hnm, hlt, hne⟩
          rw [joinExistingState_roomHeap, joinExistingState_nextRoom]
          by_cases hrr : r = rid0
          · subst hrr
            rw [upd_same]
            exact ⟨hnm, hlt, setA_ne_nil mn uid _⟩
          · rw [upd_other _ _ _ _ hrr]
            exact ⟨hnm, hlt, hne⟩
        · intro r hlt hne
          rw [joinExistingState_nextRoom] at hlt
          rw [joinExistingState_roomHeap] at hne
          rw [joinExistingState_rooms]
          by_cases hrr : r = rid0
          · subst hrr
            exact ⟨mr, heq⟩
          · rw [upd_other _ _ _ _ hrr] at hne
            exact hB r hlt hne
    | none =>
      rw [handleJoin_new mr mn uid st h1 h2 heq]
      refine (regInv_iff_core _ _ (joinFinish_rooms _ _ _ _)
        (joinFinish_roomHeap _ _ _ _) (joinFinish_nextRoom _ _ _ _)).2 ⟨?_, ?_⟩
      · intro n r hr
        rw [joinNewState_rooms] at hr
        rw [joinNewState_roomHeap, joinNewState_nextRoom]
        by_cases hn : n = mr
        · subst hn
          rw [upd_same] at hr
          injection hr with hr
          subst hr
          rw [upd_same]
          exact ⟨rfl, Nat.lt_succ_self _, by simp⟩
        · rw [upd_other _ _ _ _ hn] at hr
          rcases hA n r hr with ⟨hnm, hlt, hne⟩
          have hrr : r ≠ st.nextRoom := Nat.ne_of_lt hlt
          rw [upd_other _ _ _ _ hrr]
          exact ⟨hnm, Nat.lt_succ_of_lt hlt, hne⟩
      · intro r hlt hne
        rw [joinNewState_nextRoom] at hlt
        rw [joinNewState_roomHeap] at hne
        rw [joinNewState_rooms]
        by_cases hrr : r = st.nextRoom
        · subst hrr
          exact ⟨mr, by rw [upd_same]⟩
        · rw [upd_other _ _ _ _ hrr] at hne
          obtain ⟨n, hn⟩ := hB r (Nat.lt_of_le_of_ne (Nat.le_of_lt_succ hlt) hrr) hne
          have hn_ne : n ≠ mr := by
            intro hcon
            subst hcon
            rw [heq] at hn
            exact Option.noConfusion hn
          exact ⟨n, by rw [upd_other _ _ _ _ hn_ne]; exact hn⟩
  · -- leave preserves the invariant when its room is currently registered
    intro rid uid st hInv hcur
    obtain ⟨hA, hB⟩ := hInv
    have hheap := leave_roomHeap rid uid st
    have hrooms := leave_rooms rid uid st
    have hnext := leave_nextRoom rid uid st
    by_cases he : (delA (st.userHeap uid).name (st.roomHeap rid).users).isEmpty
    · rw [if_pos he] at hrooms
      constructor
      · intro n r hr
        rw [hrooms] at hr
        by_cases hn : n = (st.roomHeap rid).name
        · subst hn
          rw [upd_same] at hr
          exact Option.noConfusion hr
        · rw [upd_other _ _ _ _ hn] at hr
          rcases hA n r hr with ⟨hnm, hlt, hne⟩
          have hrr : r ≠ rid := fun hcon => hn (by rw [← hnm, hcon])
          rw [hheap, upd_other _ _ _ _ hrr, hnext]
          exact ⟨hnm, hlt, hne⟩
      · intro r hlt hne
        rw [hnext] at hlt
        rw [hheap] at hne
        by_cases hrr : r = rid
        · subst hrr
          rw [upd_same] at hne
          exact absurd (List.isEmpty_iff.1 he) hne
        · rw [upd_other _ _ _ _ hrr] at hne
          obtain ⟨n, hn⟩ := hB r hlt hne
          have hn_ne : n ≠ (st.roomHeap rid).name := by
            intro hcon
            subst hcon
            rw [hcur] at hn
            injection hn with hh
            exact hrr hh.symm
          exact ⟨n, by rw [hrooms, upd_other _ _ _ _ hn_ne]; exact hn⟩
    · rw [if_neg he] at hrooms
      constructor
      · intro n r hr
        rw [hrooms] at hr
        rcases hA n r hr with ⟨hnm, hlt, hne⟩
        by_cases hrr : r = rid
        · subst hrr
          rw [hheap, upd_same, hnext]
          exact ⟨hnm, hlt, fun hc => he (List.isEmpty_iff.2 hc)⟩
        · rw [hheap, upd_other _ _ _ _ hrr, hnext]
          exact ⟨hnm, hlt, hne⟩
      · intro r hlt hne
        rw [hnext] at hlt
        rw [hheap] at hne
        by_cases hrr : r = rid
        · subst hrr
          exact ⟨(st.roomHeap r).name, by rw [hrooms]; exact hcur⟩
        · rw [upd_other _ _ _ _ hrr] at hne
          obtain ⟨n, hn⟩ := hB r hlt hne
          exact ⟨n, by rw [hrooms]; exact hn⟩

theorem C1_room_lifecycle_witness :
    RegInv stAB ∧ RegInv (handleLeaveMessage 0 1 stAB) ∧
    ((handleJoinMessage "den" "dana" 3 stAB).1).rooms "den" = some 1 :=
  ⟨regInv_stAB,
   C1_room_lifecycle.2.2.2 0 1 stAB regInv_stAB rfl,
   (C1_room_lifecycle.1 "den" "dana" 3 stAB 1 rfl).1⟩

theorem afterSwitch_some (s : Session) (e : String) (st : ServerState)
    (ha : (st.userHeap s.uid).alive = true) :
    afterSwitch s (some e) st =
      ((sendMessage s.uid (.errorMsg e) st).1, s, .cont) := by
  simp [afterSwitch, ha]

/-- Claim C8: the receive loop guards every inbound message by join-state: a
Join while joined is rejected with the already-joined error and a Leave,
Group, or Private while not joined with the not-joined error; each rejection
is recoverable — converted to an outbound Error message delivered to the
session's own user, after which the loop continues (here under the premise
that the session's own delivery path is still live, since a failed error send
is itself fatal) — whereas an unrecognized message type is a fatal protocol
error terminating the receive path with the state untouched. -/
theorem C8_receive_guards (s : Session) (st : ServerState) :
    (∀ mr mn, s.hasJoined = true → (st.userHeap s.uid).alive = true →
      (wsStep s (.joinM mr mn) st).2.1 = s ∧
      (wsStep s (.joinM mr mn) st).2.2 = .cont ∧
      (((wsStep s (.joinM mr mn) st).1).userHeap s.uid).inbox =
        (st.userHeap s.uid).inbox ++ [.errorMsg "You have already joined a room."]) ∧
    (s.hasJoined = false → (st.userHeap s.uid).alive = true →
      (wsStep s .leaveM st).2.1 = s ∧
      (wsStep s .leaveM st).2.2 = .cont ∧
      (((wsStep s .leaveM st).1).userHeap s.uid).inbox =
        (st.userHeap s.uid).inbox ++ [.errorMsg "You need to join a room to do that."]) ∧
    (∀ text, s.hasJoined = false → (st.userHeap s.uid).alive = true →
      (wsStep s (.groupM text) st).2.1 = s ∧
      (wsStep s (.groupM text) st).2.2 = .cont ∧
      (((wsStep s (.groupM text) st).1).userHeap s.uid).inbox =
        (st.userHeap s.uid).inbox ++ [.errorMsg "You need to join a room to do that."]) ∧
    (∀ toName text, s.hasJoined = false → (st.userHeap s.uid).alive = true →
      (wsStep s (.privM toName text) st).2.1 = s ∧
      (wsStep s (.privM toName text) st).2.2 = .cont ∧
      (((wsStep s (.privM toName text) st).1).userHeap s.uid).inbox =
        (st.userHeap s.uid).inbox ++ [.errorMsg "You need to join a room to do that."]) ∧
    (∀ t, wsStep s (.unknownM t) st =
      (st, s, .fatal ("unknown message type: " ++ toString t))) := by
  refine ⟨?_, ?_, ?_, ?_, fun t => rfl⟩
  · intro mr mn hj ha
    rw [show wsStep s (.joinM mr mn) st =
        afterSwitch s (some "You have already joined a room.") st from by
      simp [wsStep, hj]]
    rw [afterSwitch_some s _ st ha]
    exact ⟨rfl, rfl, sendMessage_inbox_alive _ _ _ ha⟩
  · intro hj ha
    rw [show wsStep s .leaveM st =
        afterSwitch s (some "You need to join a room to do that.") st from by
      simp [wsStep, hj]]
    rw [afterSwitch_some s _ st ha]
    exact ⟨rfl, rfl, sendMessage_inbox_alive _ _ _ ha⟩
  · intro text hj ha
    rw [show wsStep s (.groupM text) st =
        afterSwitch s (some "You need to join a room to do that.") st from by
      simp [wsStep, hj]]
    rw [afterSwitch_some s _ st ha]
    exact ⟨rfl, rfl, sendMessage_inbox_alive _ _ _ ha⟩
  · intro toName text hj ha
    rw [show wsStep s (.privM toName text) st =
        afterSwitch s (some "You need to join a room to do that.") st from by
      simp [wsStep, hj]]
    rw [afterSwitch_some s _ st ha]
    exact ⟨rfl, rfl, sendMessage_inbox_alive _ _ _ ha⟩

theorem C8_receive_guards_witness :
    (wsStep ⟨0, true, some 0⟩ (.joinM "lobby" "zed") stAB).2.2 = .cont ∧
    (((wsStep ⟨0, true, some 0⟩ (.joinM "lobby" "zed") stAB).1).userHeap 0).inbox =
      (stAB.userHeap 0).inbox ++ [.errorMsg "You have already joined a room."] ∧
    (wsStep ⟨1, false, none⟩ .leaveM stAB).2.2 = .cont ∧
    wsStep ⟨1, false, none⟩ (.unknownM 9) stAB =
      (stAB, ⟨1, false, none⟩, .fatal ("unknown message type: " ++ toString 9)) :=
  ⟨((C8_receive_guards ⟨0, true, some 0⟩ stAB).1 "lobby" "zed" rfl rfl).2.1,
   ((C8_receive_guards ⟨0, true, some 0⟩ stAB).1 "lobby" "zed" rfl rfl).2.2,
   ((C8_receive_guards ⟨1, false, none⟩ stAB).2.1 rfl rfl).2.1,
   (C8_receive_guards ⟨1, false, none⟩ stAB).2.2.2.2 9⟩

/-- Claim C9: lock-order invariant.  Each handler's event trace is a balanced
lock trace in which the registry mutex is only acquired or released while no
room mutex is held — so in the operations that take both (join into an
existing room, leave) the registry mutex is acquired strictly before and
released strictly after the room's mutex, and no operation ever acquires the
registry mutex while holding a room mutex; additionally every room-mutex
acquisition in the join and leave handlers happens while the registry mutex is
held, and the group and private handlers never touch the registry mutex at
all. -/
theorem C9_lock_order :
    (∀ mr mn uid st, ∃ δ,
      ((handleJoinMessage mr mn uid st).1).events = st.events ++ δ ∧
      lockCheck false [] δ = true ∧ roomUnderReg false δ = true) ∧
    (∀ rid uid st, ∃ δ,
      (handleLeaveMessage rid uid st).events = st.events ++ δ ∧
      lockCheck false [] δ = true ∧ roomUnderReg false δ = true) ∧
    (∀ text rid uid st, ∃ δ,
      ((handleGroupMessage text rid uid st).1).events = st.events ++ δ ∧
      lockCheck false [] δ = true ∧ hasRegLock δ = false) ∧
    (∀ toName text rid uid st, ∃ δ,
      ((handlePrivateMessage toName text rid uid st).1).events = st.events ++ δ ∧
      lockCheck false [] δ = true ∧ hasRegLock δ = false) := by
  refine ⟨?_, ?_, ?_, ?_⟩
  · intro mr mn uid st
    by_cases h1 : mr.utf8ByteSize = 0 ∨ 128 < mr.utf8ByteSize
    · refine ⟨[], ?_, rfl, rfl⟩
      rw [handleJoin_validRoom mr mn uid st h1]
      simp
    by_cases h2 : mn.utf8ByteSize = 0 ∨ 128 < mn.utf8ByteSize
    · refine ⟨[], ?_, rfl, rfl⟩
      rw [handleJoin_validNick mr mn uid st h1 h2]
      simp
    cases heq : st.rooms mr with
    | some rid0 =>
      by_cases h3 : (lookupA mn (st.roomHeap rid0).users).isSome
      · refine ⟨[.lockReg, .lockRoom rid0, .unlockRoom rid0, .unlockReg], ?_, ?_, ?_⟩
        · rw [handleJoin_taken mr mn uid st rid0 h1 h2 heq h3]
        · simp [lockCheck]
        · simp [roomUnderReg]
      · have h3' : lookupA mn (st.roomHeap rid0).users = none :=
          Option.not_isSome_iff_eq_none.1 h3
        refine ⟨.lockReg :: .lockRoom rid0 :: .unlockRoom rid0 ::
          Event.send uid (.rosterMsg
            ((((joinExistingState mn rid0 uid st).roomHeap rid0).users.map Prod.fst).filter
              (fun x => x != mn))) ::
          (((joinExistingState mn rid0 uid st).roomHeap rid0).users.map
            (fun p => Event.send p.2 (.joinMsg "" mn)) ++ [Event.unlockReg]), ?_, ?_, ?_⟩
        · rw [handleJoin_existing mr mn uid st rid0 h1 h2 heq h3', joinFinish_events]
          simp [joinExistingState]
        · simp only [lockCheck, lockCheck_skip_sends]
          simp [lockCheck]
        · simp only [roomUnderReg, roomUnderReg_skip_sends]
          simp [roomUnderReg]
    | none =>
      refine ⟨.lockReg ::
        Event.send uid (.rosterMsg
          ((((joinNewState mr mn uid st).roomHeap st.nextRoom).users.map Prod.fst).filter
            (fun x => x != mn))) ::
        (((joinNewState mr mn uid st).roomHeap st.nextRoom).users.map
          (fun p => Event.send p.2 (.joinMsg "" mn)) ++ [Event.unlockReg]), ?_, ?_, ?_⟩
      · rw [handleJoin_new mr mn uid st h1 h2 heq, joinFinish_events]
        simp [joinNewState]
      · simp only [lockCheck, lockCheck_skip_sends]
        simp [lockCheck]
      · simp only [roomUnderReg, roomUnderReg_skip_sends]
  · intro rid uid st
    refine ⟨Event.lockReg :: Event.lockRoom rid ::
      ((delA (st.userHeap uid).name (st.roomHeap rid).users).map
          (fun p => Event.send p.2 (.leaveMsg (st.userHeap uid).name)) ++
        [Event.unlockRoom rid, Event.unlockReg]), leave_events rid uid st, ?_, ?_⟩
    · simp only [lockCheck, lockCheck_skip_sends]
      simp [lockCheck]
    · simp only [roomUnderReg, roomUnderReg_skip_sends]
      simp [roomUnderReg]
  · intro text rid uid st
    refine ⟨Event.lockRoom rid ::
      ((st.roomHeap rid).users.map
          (fun p => Event.send p.2 (.groupMsg (st.userHeap uid).name text)) ++
        [Event.unlockRoom rid]), by simp [handleGroupMessage], ?_, ?_⟩
    · simp only [lockCheck, lockCheck_skip_sends]
      simp [lockCheck]
    · simp only [hasRegLock, hasRegLock_skip_sends]
  · intro toName text rid uid st
    cases hl : lookupA toName (st.roomHeap rid).users with
    | some tid =>
      refine ⟨[Event.lockRoom rid,
        Event.send tid (.privateMsg "" (st.userHeap uid).name text),
        Event.unlockRoom rid], ?_, by simp [lockCheck], rfl⟩
      simp [handlePrivateMessage, hl]
    | none =>
      refine ⟨[Event.lockRoom rid, Event.unlockRoom rid], ?_, by simp [lockCheck], rfl⟩
      simp [handlePrivateMessage, hl]

end Cryptodog
